import Mathlib

/-!
Verification of the proxy_network repository.

Shallow embedding of the engine's pure logic:
  * `FilterManager` (src/filter_manager.py): rule loading and `is_blocked`;
  * `HTTPParser` (src/http_parser.py): `parse_request`;
  * `ProxyServer` (src/proxy_server.py): `_receive_request` and the
    client-handler dispatch, modelled as an explicit action trace.

Byte strings and Python `str` values are both modelled as `List Char`
(one `Char` per byte; `bytes.decode('utf-8', errors='ignore')` is the
identity on the ASCII fragment used throughout).  Python's `set` is
modelled as a `List` queried only through membership, and `dict` as an
association list whose last binding wins.  Python library functions the
source calls (`ipaddress.ip_address`, `urllib.parse.urlparse`,
`re.match` on the one request-line pattern, `int(...)`) are modelled
on their ASCII fragment, faithfully to CPython's documented behaviour.
-/

/-! ## Python string primitives (ASCII fragment) -/

/-- Python whitespace for `str.strip` and the regex class `\s`
(ASCII fragment: space, tab, newline, carriage return, vertical tab,
form feed). -/
def pySpace (c : Char) : Bool :=
  c = ' ' || c = '\t' || c = '\n' || c = '\r' || c = '\x0b' || c = '\x0c'

/-- Python `str.lower()` (ASCII fragment). -/
def pyLower (s : List Char) : List Char := s.map Char.toLower

/-- Python `str.upper()` (ASCII fragment). -/
def pyUpper (s : List Char) : List Char := s.map Char.toUpper

/-- Python `str.strip()` with no argument (ASCII whitespace fragment). -/
def pyStrip (s : List Char) : List Char :=
  ((s.dropWhile pySpace).reverse.dropWhile pySpace).reverse

/-- Split on a single-character separator, Python `str.split(sep)`:
`splitChar ':' "a::b" = ["a", "", "b"]`. -/
def splitChar (sep : Char) : List Char → List (List Char)
  | [] => [[]]
  | c :: rest =>
    if c = sep then [] :: splitChar sep rest
    else
      match splitChar sep rest with
      | [] => [[c]]
      | h :: t => (c :: h) :: t

/-- Split on the two-character separator `"\r\n"`, Python
`str.split('\r\n')`. -/
def splitCRLF : List Char → List (List Char)
  | '\r' :: '\n' :: rest => [] :: splitCRLF rest
  | [] => [[]]
  | c :: rest =>
    match splitCRLF rest with
    | [] => [[c]]
    | h :: t => (c :: h) :: t

/-- Python `str.find('\r\n\r\n')`, returned as the text before the first
occurrence (`none` when the terminator does not occur). -/
def takeBefore2CRLF : List Char → Option (List Char)
  | '\r' :: '\n' :: '\r' :: '\n' :: _ => some []
  | [] => none
  | c :: rest => (takeBefore2CRLF rest).map (c :: ·)

/-- Python `str.split(sep, 1)[0]` and `[1]` for a one-character
separator: split at the first occurrence only. -/
def splitFirst (sep : Char) : List Char → Option (List Char × List Char)
  | [] => none
  | c :: rest =>
    if c = sep then some ([], rest)
    else (splitFirst sep rest).map (fun p => (c :: p.1, p.2))

/-- Python `str.rsplit(sep, 1)` for a one-character separator: split at
the last occurrence only. -/
def splitLast (sep : Char) (s : List Char) : Option (List Char × List Char) :=
  (splitFirst sep s.reverse).map (fun p => (p.2.reverse, p.1.reverse))

/-- Decimal value of a digit string (helper for the `int` model). -/
def digitsVal (ds : List Char) : Nat :=
  ds.foldl (fun a c => a * 10 + (c.toNat - 48)) 0

/-- Digit-run check used by the Python `int` model: decimal digits with
single underscores allowed between digits (CPython accepts `1_0`). -/
def pyIntDigits : List Char → Bool
  | [] => false
  | [c] => c.isDigit
  | c :: '_' :: rest => c.isDigit && pyIntDigits rest
  | c :: rest => c.isDigit && pyIntDigits rest

/-- Value of a digit run accepted by `pyIntDigits` (underscores ignored). -/
def pyIntDigitsVal (ds : List Char) : Nat :=
  digitsVal (ds.filter (fun c => c ≠ '_'))

/-- Python `int(s)` / `int(s, 10)` on ASCII text: optional surrounding
whitespace, optional sign, then decimal digits (with single embedded
underscores); anything else raises `ValueError`, modelled by `none`. -/
def pyInt (s : List Char) : Option Int :=
  let t := pyStrip s
  match t with
  | '+' :: ds => if pyIntDigits ds then some (pyIntDigitsVal ds) else none
  | '-' :: ds => if pyIntDigits ds then some (-(pyIntDigitsVal ds : Int)) else none
  | ds => if pyIntDigits ds then some (pyIntDigitsVal ds) else none

/-! ## Model of Python's `ipaddress.ip_address`

`ip_address(s)` tries `IPv4Address(s)` and then `IPv6Address(s)`,
raising `ValueError` when both fail.  The model covers dotted-quad IPv4
and hex-group IPv6 (with one optional `::`); dotted-quad tails inside
IPv6 literals and `%zone` suffixes are outside the modelled fragment. -/

/-- An address value: four IPv4 octets, or eight IPv6 16-bit groups. -/
inductive PyIpAddr
  | v4 (a b c d : Nat)
  | v6 (groups : List Nat)
  deriving DecidableEq, Repr

/-- One IPv4 octet per CPython `_parse_octet`: 1–3 ASCII digits, no
leading zero (except `"0"` itself), value at most 255. -/
def parseOctet (s : List Char) : Option Nat :=
  if s.isEmpty then none
  else if !(s.all Char.isDigit) then none
  else if 3 < s.length then none
  else if 1 < s.length && s.headD '0' = '0' then none
  else
    let v := digitsVal s
    if v ≤ 255 then some v else none

/-- CPython `IPv4Address(s)`: exactly four octets separated by dots. -/
def parseIPv4 (s : List Char) : Option PyIpAddr :=
  match (splitChar '.' s).mapM parseOctet with
  | some [a, b, c, d] => some (.v4 a b c d)
  | _ => none

/-- ASCII hexadecimal digit test. -/
def isHexChar (c : Char) : Bool :=
  c.isDigit || ('a' ≤ c && c ≤ 'f') || ('A' ≤ c && c ≤ 'F')

/-- Value of an ASCII hexadecimal digit. -/
def hexCharVal (c : Char) : Nat :=
  if c.isDigit then c.toNat - 48
  else if 'a' ≤ c && c ≤ 'f' then c.toNat - 87
  else c.toNat - 55

/-- One IPv6 group: 1–4 hexadecimal digits. -/
def parseHextet (s : List Char) : Option Nat :=
  if s.isEmpty then none
  else if 4 < s.length then none
  else if !(s.all isHexChar) then none
  else some (s.foldl (fun a c => a * 16 + hexCharVal c) 0)

/-- Split at the first occurrence of `"::"`. -/
def splitDoubleColon : List Char → Option (List Char × List Char)
  | ':' :: ':' :: rest => some ([], rest)
  | [] => none
  | c :: rest => (splitDoubleColon rest).map (fun p => (c :: p.1, p.2))

/-- Hex groups of one side of a `::`: the empty side contributes no
group at all (Python splits the non-empty sides on single colons). -/
def sideGroups (s : List Char) : Option (List Nat) :=
  if s.isEmpty then some []
  else (splitChar ':' s).mapM parseHextet

/-- CPython `IPv6Address(s)` on the hex-group fragment: eight groups of
1–4 hex digits separated by colons, with at most one `::` standing for
at least one zero group. -/
def parseIPv6 (s : List Char) : Option PyIpAddr :=
  match splitDoubleColon s with
  | none =>
    match (splitChar ':' s).mapM parseHextet with
    | some gs => if gs.length = 8 then some (.v6 gs) else none
    | none => none
  | some (l, r) =>
    if (splitDoubleColon r).isSome then none
    else
      match sideGroups l, sideGroups r with
      | some hi, some lo =>
        if hi.length + lo.length ≤ 7 then
          some (.v6 (hi ++ List.replicate (8 - hi.length - lo.length) 0 ++ lo))
        else none
      | _, _ => none

/-- Model of `ipaddress.ip_address`. -/
def ip_address (s : List Char) : Option PyIpAddr :=
  match parseIPv4 s with
  | some a => some a
  | none => parseIPv6 s

/-! ## Model of `str()` on an `ipaddress` address object -/

/-- ASCII digit character for a value below 10. -/
def digitChar (n : Nat) : Char := Char.ofNat (48 + n)

/-- Decimal rendering of an IPv4 octet (0–255). -/
def decOctet (n : Nat) : List Char :=
  if n < 10 then [digitChar n]
  else if n < 100 then [digitChar (n / 10), digitChar (n % 10)]
  else [digitChar (n / 100), digitChar (n / 10 % 10), digitChar (n % 10)]

/-- Lowercase hex character for a value below 16. -/
def hexChar (n : Nat) : Char :=
  if n < 10 then Char.ofNat (48 + n) else Char.ofNat (87 + n)

/-- Lowercase hex rendering of a 16-bit IPv6 group without leading
zeros (CPython `'%x' % value`). -/
def hexQuad (n : Nat) : List Char :=
  let ds := [hexChar (n / 4096 % 16), hexChar (n / 256 % 16),
             hexChar (n / 16 % 16), hexChar (n % 16)]
  match ds.dropWhile (fun c => c = '0') with
  | [] => ['0']
  | l => l

/-- First longest run of zero groups, as CPython `_compress_hextets`
tracks it: `(best_doublecolon_start, best_doublecolon_len)`. -/
def bestZeroRun (groups : List Nat) : Nat × Nat :=
  let step := fun (st : Nat × Nat × Nat × Nat) (p : Nat × Nat) =>
    let (bs, bl, cs, cl) := st
    let (i, g) := p
    if g = 0 then
      let cs2 := if cl = 0 then i else cs
      let cl2 := cl + 1
      if bl < cl2 then (cs2, cl2, cs2, cl2) else (bs, bl, cs2, cl2)
    else (bs, bl, 0, 0)
  let r := groups.enum.foldl step (0, 0, 0, 0)
  (r.1, r.2.1)

/-- CPython `IPv6Address.__str__`: hex groups joined by colons, with the
first longest run of two or more zero groups compressed to `::`. -/
def v6String (groups : List Nat) : List Char :=
  let hextets := groups.map hexQuad
  let (bs, bl) := bestZeroRun groups
  if 1 < bl then
    let base := hextets.take bs ++ [[]] ++ hextets.drop (bs + bl)
    let base := if bs + bl = hextets.length then base ++ [[]] else base
    let base := if bs = 0 then [] :: base else base
    List.intercalate [':'] base
  else List.intercalate [':'] hextets

/-- Model of `str(ipaddress.ip_address(...))`. -/
def ipToString : PyIpAddr → List Char
  | .v4 a b c d =>
    decOctet a ++ '.' :: decOctet b ++ '.' :: decOctet c ++ '.' :: decOctet d
  | .v6 gs => v6String gs

/-! ## FilterManager (src/filter_manager.py)

The rule set holds `blocked_domains` and `blocked_ips` (Python sets,
modelled as lists queried by membership) and `blocked_suffixes` (a
Python list). -/

structure RuleSet where
  blocked_domains : List (List Char)
  blocked_ips : List (List Char)
  blocked_suffixes : List (List Char)
  deriving DecidableEq, Repr

/-- The empty rule set, as after `clear()` on all three containers. -/
def emptyRules : RuleSet := ⟨[], [], []⟩

/-- One iteration of the `for line in f` loop in
`FilterManager.load_filters`: strip the line, skip comments and blanks,
classify as IP / wildcard suffix / exact domain. -/
def loadStep (rs : RuleSet) (raw : List Char) : RuleSet :=
  let line := pyStrip raw
  if line.isEmpty || line.take 1 = ['#'] then rs
  else
    match ip_address line with
    | some _ => { rs with blocked_ips := rs.blocked_ips ++ [line] }
    | none =>
      let domain := pyLower line
      if domain.take 2 = ['*', '.'] then
        { rs with blocked_suffixes := rs.blocked_suffixes ++ [domain.drop 2] }
      else { rs with blocked_domains := rs.blocked_domains ++ [domain] }

/-- The whole `for line in f` loop, starting from cleared containers. -/
def loadLines (lines : List (List Char)) : RuleSet :=
  lines.foldl loadStep emptyRules

/-- `FilterManager.load_filters`.  The body first clears the three
containers and only then opens the file; `file = none` models an I/O
error raised by `open`/read (for example the file is unreadable), which
the function catches after the containers were already cleared. -/
def load_filters (_previous : RuleSet) (file : Option (List (List Char))) : RuleSet :=
  match file with
  | none => emptyRules
  | some lines => loadLines lines

/-- `FilterManager.is_blocked`. -/
def is_blocked (rs : RuleSet) (host : List Char) : Bool :=
  if host.isEmpty then false
  else
    let h := pyStrip (pyLower host)
    if rs.blocked_ips.contains h then true
    else if (match ip_address h with
             | some ip => rs.blocked_ips.contains (ipToString ip)
             | none => false) then true
    else if rs.blocked_domains.contains h then true
    else rs.blocked_suffixes.any (fun suf => ('.' :: suf).isSuffixOf h || h = suf)

/-- The blocking condition exactly as claim C3 words it: after
lower-casing and trimming, (a) the host parses as an IP whose canonical
parse-then-stringify form is in `exact_ips`, or (b) the host is in
`exact_domains`, or (c) some suffix matches. -/
def claimC3Cond (rs : RuleSet) (host : List Char) : Bool :=
  let h := pyStrip (pyLower host)
  (match ip_address h with
   | some ip => rs.blocked_ips.contains (ipToString ip)
   | none => false)
  || rs.blocked_domains.contains h
  || rs.blocked_suffixes.any (fun suf => h = suf || ('.' :: suf).isSuffixOf h)

/-- The amended blocking condition: claim C3's condition plus the raw
membership test `host ∈ exact_ips` that the code performs first. -/
def amendedC3Cond (rs : RuleSet) (host : List Char) : Bool :=
  let h := pyStrip (pyLower host)
  rs.blocked_ips.contains h
  || (match ip_address h with
      | some ip => rs.blocked_ips.contains (ipToString ip)
      | none => false)
  || rs.blocked_domains.contains h
  || rs.blocked_suffixes.any (fun suf => h = suf || ('.' :: suf).isSuffixOf h)

/-- Kept lines of a rules file: those that survive the comment/blank
filter in `load_filters`. -/
def keepLine (raw : List Char) : Bool :=
  let line := pyStrip raw
  !(line.isEmpty || line.take 1 = ['#'])

/-! ## Characterisation of `loadLines` -/

/-- The exact-domain entry contributed by one raw line, if any. -/
def classifyDomain (raw : List Char) : Option (List Char) :=
  let line := pyStrip raw
  if line.isEmpty || line.take 1 = ['#'] then none
  else
    match ip_address line with
    | some _ => none
    | none =>
      let domain := pyLower line
      if domain.take 2 = ['*', '.'] then none else some domain

/-- The IP entry contributed by one raw line, if any. -/
def classifyIp (raw : List Char) : Option (List Char) :=
  let line := pyStrip raw
  if line.isEmpty || line.take 1 = ['#'] then none
  else
    match ip_address line with
    | some _ => some line
    | none => none

/-- The wildcard-suffix entry contributed by one raw line, if any. -/
def classifySuffix (raw : List Char) : Option (List Char) :=
  let line := pyStrip raw
  if line.isEmpty || line.take 1 = ['#'] then none
  else
    match ip_address line with
    | some _ => none
    | none =>
      let domain := pyLower line
      if domain.take 2 = ['*', '.'] then some (domain.drop 2) else none

theorem loadStep_domains (rs : RuleSet) (raw : List Char) :
    (loadStep rs raw).blocked_domains =
      rs.blocked_domains ++ (classifyDomain raw).toList := by
  simp only [loadStep, classifyDomain]
  split
  · simp
  · split
    · simp
    · split <;> simp

theorem loadStep_ips (rs : RuleSet) (raw : List Char) :
    (loadStep rs raw).blocked_ips = rs.blocked_ips ++ (classifyIp raw).toList := by
  simp only [loadStep, classifyIp]
  split
  · simp
  · split
    · simp
    · split <;> simp

theorem loadStep_suffixes (rs : RuleSet) (raw : List Char) :
    (loadStep rs raw).blocked_suffixes =
      rs.blocked_suffixes ++ (classifySuffix raw).toList := by
  simp only [loadStep, classifySuffix]
  split
  · simp
  · split
    · simp
    · split <;> simp

theorem foldl_loadStep_domains (ls : List (List Char)) (rs : RuleSet) :
    (ls.foldl loadStep rs).blocked_domains =
      rs.blocked_domains ++ ls.filterMap classifyDomain := by
  induction ls generalizing rs with
  | nil => simp
  | cons l t ih =>
    rw [List.foldl_cons, ih, loadStep_domains, List.filterMap_cons]
    cases classifyDomain l <;> simp

theorem foldl_loadStep_ips (ls : List (List Char)) (rs : RuleSet) :
    (ls.foldl loadStep rs).blocked_ips = rs.blocked_ips ++ ls.filterMap classifyIp := by
  induction ls generalizing rs with
  | nil => simp
  | cons l t ih =>
    rw [List.foldl_cons, ih, loadStep_ips, List.filterMap_cons]
    cases classifyIp l <;> simp

theorem foldl_loadStep_suffixes (ls : List (List Char)) (rs : RuleSet) :
    (ls.foldl loadStep rs).blocked_suffixes =
      rs.blocked_suffixes ++ ls.filterMap classifySuffix := by
  induction ls generalizing rs with
  | nil => simp
  | cons l t ih =>
    rw [List.foldl_cons, ih, loadStep_suffixes, List.filterMap_cons]
    cases classifySuffix l <;> simp

theorem loadLines_domains (ls : List (List Char)) :
    (loadLines ls).blocked_domains = ls.filterMap classifyDomain := by
  simp [loadLines, foldl_loadStep_domains, emptyRules]

theorem loadLines_ips (ls : List (List Char)) :
    (loadLines ls).blocked_ips = ls.filterMap classifyIp := by
  simp [loadLines, foldl_loadStep_ips, emptyRules]

theorem loadLines_suffixes (ls : List (List Char)) :
    (loadLines ls).blocked_suffixes = ls.filterMap classifySuffix := by
  simp [loadLines, foldl_loadStep_suffixes, emptyRules]

/-- Lines dropped by the comment/blank filter contribute no entry. -/
theorem classify_none_of_not_keep (f : List Char → Option (List Char))
    (hf : ∀ raw, keepLine raw = false → f raw = none)
    (ls : List (List Char)) :
    ls.filterMap f = (ls.filter keepLine).filterMap f := by
  induction ls with
  | nil => rfl
  | cons l t ih =>
    by_cases h : keepLine l
    · simp [List.filterMap_cons, List.filter_cons, h, ih]
    · have := hf l (by simpa using h)
      simp [List.filterMap_cons, List.filter_cons, h, this, ih]

theorem keepLine_false_iff (raw : List Char) : keepLine raw = false ↔
    ((pyStrip raw).isEmpty || decide (List.take 1 (pyStrip raw) = ['#'])) = true := by
  simp [keepLine]
  tauto

theorem classifyDomain_not_keep (raw : List Char) (h : keepLine raw = false) :
    classifyDomain raw = none := by
  rw [keepLine_false_iff] at h
  simp only [classifyDomain]
  split
  · rfl
  · rename_i hc
    exact absurd h hc

theorem classifyIp_not_keep (raw : List Char) (h : keepLine raw = false) :
    classifyIp raw = none := by
  rw [keepLine_false_iff] at h
  simp only [classifyIp]
  split
  · rfl
  · rename_i hc
    exact absurd h hc

theorem classifySuffix_not_keep (raw : List Char) (h : keepLine raw = false) :
    classifySuffix raw = none := by
  rw [keepLine_false_iff] at h
  simp only [classifySuffix]
  split
  · rfl
  · rename_i hc
    exact absurd h hc

/-- Membership is invariant under permutation, stated on `contains`. -/
theorem contains_congr_of_perm {l1 l2 : List (List Char)} (h : l1.Perm l2)
    (x : List Char) : l1.contains x = l2.contains x := by
  simp only [List.contains, List.elem_eq_mem]
  exact decide_eq_decide.mpr h.mem_iff

/-- `any` is invariant under permutation. -/
theorem any_congr_of_perm {l1 l2 : List (List Char)} (h : l1.Perm l2)
    (p : List Char → Bool) : l1.any p = l2.any p := by
  rw [Bool.eq_iff_iff]
  simp only [List.any_eq_true]
  constructor
  · rintro ⟨x, hx, hp⟩; exact ⟨x, h.mem_iff.mp hx, hp⟩
  · rintro ⟨x, hx, hp⟩; exact ⟨x, h.mem_iff.mpr hx, hp⟩

/-- `is_blocked` depends on the rule set only through membership. -/
theorem is_blocked_congr {a b : RuleSet}
    (hd : a.blocked_domains.Perm b.blocked_domains)
    (hi : a.blocked_ips.Perm b.blocked_ips)
    (hs : a.blocked_suffixes.Perm b.blocked_suffixes)
    (host : List Char) : is_blocked a host = is_blocked b host := by
  simp only [is_blocked, contains_congr_of_perm hi, contains_congr_of_perm hd,
    any_congr_of_perm hs]

/-- Field-wise equality of rule sets. -/
theorem RuleSet.eq_of_fields {a b : RuleSet}
    (h1 : a.blocked_domains = b.blocked_domains)
    (h2 : a.blocked_ips = b.blocked_ips)
    (h3 : a.blocked_suffixes = b.blocked_suffixes) : a = b := by
  cases a; cases b; simp_all

/-! ## Claims C1, C3, C4, C10 -/

/-- C1: the claim says a failed load leaves the previous rule set in
place.  The code clears all three containers before opening the file,
so an I/O error while opening leaves the filter with an emptied rule
set: starting from rules containing `blocked.test` (which blocks that
host), a failed load yields the empty rule set, and `blocked.test` is
no longer blocked.  This evaluates the code at the failing input and
exhibits the divergence from the claim. -/
theorem C1_failed_load_empties_rule_set :
    load_filters ⟨["blocked.test".data], [], []⟩ none = emptyRules ∧
    is_blocked ⟨["blocked.test".data], [], []⟩ "blocked.test".data = true ∧
    is_blocked (load_filters ⟨["blocked.test".data], [], []⟩ none)
      "blocked.test".data = false := by
  decide

/-- C3 counterexample: with `exact_ips = {"nonip"}` (a string that does
not parse as an IP) and host `nonip`, the code blocks the host via its
raw membership test, while the claim's condition (IP-canonical
membership, exact domain, or suffix) is false.  So the claimed
if-and-only-if fails at this rule set and host. -/
theorem C3_counterexample :
    is_blocked ⟨[], ["nonip".data], []⟩ "nonip".data = true ∧
    claimC3Cond ⟨[], ["nonip".data], []⟩ "nonip".data = false := by
  decide

/-- C3 amended: `is_blocked` returns true iff, after lower-casing and
trimming, the host is literally in `exact_ips`, or parses as an IP
whose canonical form is in `exact_ips`, or is in `exact_domains`, or
matches some suffix; and with the single rule `*.ads.test` the hosts
`a.b.ads.test` and `ads.test` are blocked while `notads.test` is not. -/
theorem C3_is_blocked_amended :
    (∀ (rs : RuleSet) (host : List Char), host ≠ [] →
      is_blocked rs host = amendedC3Cond rs host) ∧
    is_blocked ⟨[], [], ["ads.test".data]⟩ "a.b.ads.test".data = true ∧
    is_blocked ⟨[], [], ["ads.test".data]⟩ "ads.test".data = true ∧
    is_blocked ⟨[], [], ["ads.test".data]⟩ "notads.test".data = false := by
  refine ⟨?_, by decide, by decide, by decide⟩
  intro rs host hne
  have hne2 : host.isEmpty = false := by simpa [List.isEmpty_iff] using hne
  simp only [is_blocked, amendedC3Cond, hne2]
  cases h1 : rs.blocked_ips.contains (pyStrip (pyLower host)) <;>
    cases h3 : ip_address (pyStrip (pyLower host)) <;>
    cases h2 : rs.blocked_domains.contains (pyStrip (pyLower host)) <;>
    simp [h1, h2, h3, Bool.or_comm]

/-- Witness for C3: the amended equivalence applied at a concrete rule
set and host. -/
theorem C3_is_blocked_amended_witness :
    "a.b.ads.test".data ≠ [] ∧
    is_blocked ⟨[], [], ["ads.test".data]⟩ "a.b.ads.test".data =
      amendedC3Cond ⟨[], [], ["ads.test".data]⟩ "a.b.ads.test".data :=
  ⟨by decide, C3_is_blocked_amended.1 ⟨[], [], ["ads.test".data]⟩
    "a.b.ads.test".data (by decide)⟩

/-- C4 counterexample: loading the single rule line `::0:1` stores the
string verbatim in `exact_ips`, but the canonical parse-then-stringify
form of that address is `::1`, so the stored entry is not canonical;
and loading the single rule line `*.` appends the empty string to
`suffixes`.  Both parts of the claimed invariant fail. -/
theorem C4_counterexample :
    (loadLines ["::0:1".data]).blocked_ips = ["::0:1".data] ∧
    ip_address "::0:1".data = some (.v6 [0, 0, 0, 0, 0, 0, 0, 1]) ∧
    ipToString (.v6 [0, 0, 0, 0, 0, 0, 0, 1]) = "::1".data ∧
    "::1".data ≠ "::0:1".data ∧
    (loadLines ["*.".data]).blocked_suffixes = [[]] := by
  decide

/-- C4 amended: after a successful load, every entry of `exact_ips`
parses as a valid IP address (it is stored as written, not
canonicalised), entries of `exact_ips` and `exact_domains` are
non-empty (a suffix entry may be empty, from the line `*.`), and
comment and blank lines contribute no entry: the loaded rule set
equals the one loaded from the kept lines alone. -/
theorem C4_load_invariants_amended (lines : List (List Char)) :
    (∀ e ∈ (loadLines lines).blocked_ips, (ip_address e).isSome ∧ e ≠ []) ∧
    (∀ e ∈ (loadLines lines).blocked_domains, e ≠ []) ∧
    loadLines lines = loadLines (lines.filter keepLine) := by
  refine ⟨?_, ?_, ?_⟩
  · intro e he
    rw [loadLines_ips] at he
    obtain ⟨raw, _, hc⟩ := List.mem_filterMap.mp he
    simp only [classifyIp] at hc
    split at hc
    · cases hc
    · rename_i hguard
      split at hc
      · rename_i a hip
        cases hc
        simp only [Bool.or_eq_true, not_or, List.isEmpty_iff,
          decide_eq_true_eq] at hguard
        exact ⟨by rw [hip]; rfl, by simpa using hguard.1⟩
      · cases hc
  · intro e he
    rw [loadLines_domains] at he
    obtain ⟨raw, _, hc⟩ := List.mem_filterMap.mp he
    simp only [classifyDomain] at hc
    split at hc
    · cases hc
    · rename_i hguard
      split at hc
      · cases hc
      · split at hc
        · cases hc
        · cases hc
          simp only [Bool.or_eq_true, not_or, List.isEmpty_iff,
            decide_eq_true_eq] at hguard
          simpa [pyLower] using hguard.1
  · apply RuleSet.eq_of_fields
    · rw [loadLines_domains, loadLines_domains,
        classify_none_of_not_keep classifyDomain classifyDomain_not_keep]
    · rw [loadLines_ips, loadLines_ips,
        classify_none_of_not_keep classifyIp classifyIp_not_keep]
    · rw [loadLines_suffixes, loadLines_suffixes,
        classify_none_of_not_keep classifySuffix classifySuffix_not_keep]

/-- Witness for C4: the amended invariant applied to a concrete file. -/
theorem C4_load_invariants_amended_witness :
    ("1.2.3.4".data ∈ (loadLines ["1.2.3.4".data, "# c".data]).blocked_ips) ∧
    (ip_address "1.2.3.4".data).isSome ∧ "1.2.3.4".data ≠ [] :=
  ⟨by decide, (C4_load_invariants_amended ["1.2.3.4".data, "# c".data]).1
    "1.2.3.4".data (by decide)⟩

/-- C10: loading a rules file whose meaningful lines are a permutation
of the original's (reordering rule lines and adding or removing
comment and blank lines) yields the same `is_blocked` outcome for
every host. -/
theorem C10_rules_file_invariance (l1 l2 : List (List Char)) (host : List Char)
    (h : (l2.filter keepLine).Perm (l1.filter keepLine)) :
    is_blocked (loadLines l2) host = is_blocked (loadLines l1) host := by
  apply is_blocked_congr
  · rw [loadLines_domains, loadLines_domains,
      classify_none_of_not_keep classifyDomain classifyDomain_not_keep l2,
      classify_none_of_not_keep classifyDomain classifyDomain_not_keep l1]
    exact h.filterMap _
  · rw [loadLines_ips, loadLines_ips,
      classify_none_of_not_keep classifyIp classifyIp_not_keep l2,
      classify_none_of_not_keep classifyIp classifyIp_not_keep l1]
    exact h.filterMap _
  · rw [loadLines_suffixes, loadLines_suffixes,
      classify_none_of_not_keep classifySuffix classifySuffix_not_keep l2,
      classify_none_of_not_keep classifySuffix classifySuffix_not_keep l1]
    exact h.filterMap _

/-- Witness for C10: a reordered file with a comment added gives the
same outcome as the original. -/
theorem C10_rules_file_invariance_witness :
    ((["*.s.test".data, "# note".data, "a.test".data].filter keepLine).Perm
      (["a.test".data, "*.s.test".data].filter keepLine)) ∧
    is_blocked (loadLines ["*.s.test".data, "# note".data, "a.test".data])
        "x.s.test".data =
      is_blocked (loadLines ["a.test".data, "*.s.test".data]) "x.s.test".data :=
  ⟨by
    rw [show ["*.s.test".data, "# note".data, "a.test".data].filter keepLine =
        ["*.s.test".data, "a.test".data] from by decide,
      show ["a.test".data, "*.s.test".data].filter keepLine =
        ["a.test".data, "*.s.test".data] from by decide]
    exact List.Perm.swap _ _ _,
   C10_rules_file_invariance _ _ _ (by
    rw [show ["*.s.test".data, "# note".data, "a.test".data].filter keepLine =
        ["*.s.test".data, "a.test".data] from by decide,
      show ["a.test".data, "*.s.test".data].filter keepLine =
        ["a.test".data, "*.s.test".data] from by decide]
    exact List.Perm.swap _ _ _)⟩

/-! ## HTTPParser (src/http_parser.py)

`parse_request` decodes the raw bytes (identity on the ASCII fragment),
matches the request line against the compiled pattern
`^([A-Z]+)\s+(.+?)\s+(HTTP/\d\.\d)$` with `re.IGNORECASE`, parses the
headers, and resolves host/port/path from an absolute URI or from the
`Host` header.  The regex is modelled by a specialised matcher with
Python's backtracking order: the leading letter run and each whitespace
run are forced maximal (letters, whitespace and the rigid tail are
disjoint), and the lazy target grows from the shortest length. -/

/-- The class `[A-Z]` under `re.IGNORECASE` (ASCII fragment). -/
def asciiLetter (c : Char) : Bool :=
  ('A' ≤ c && c ≤ 'Z') || ('a' ≤ c && c ≤ 'z')

/-- The rigid pattern tail `HTTP/\d\.\d$`: literal letters match
case-insensitively under `re.IGNORECASE`, and `$` also matches just
before a single trailing newline. -/
def tailVersion : List Char → Option (List Char)
  | h :: t1 :: t2 :: p :: s :: d1 :: d :: d2 :: stop =>
    if h.toLower = 'h' && t1.toLower = 't' && t2.toLower = 't' &&
       p.toLower = 'p' && s = '/' && d1.isDigit && d = '.' && d2.isDigit &&
       (stop.isEmpty || stop = ['\n'])
    then some [h, t1, t2, p, s, d1, d, d2] else none
  | _ => none

/-- The pattern tail `\s+(HTTP/\d\.\d)$`: at least one whitespace
character, then the rigid tail.  The whitespace run is forced maximal
because the tail starts with a non-whitespace letter. -/
def matchTail (xs : List Char) : Option (List Char) :=
  let ws := xs.takeWhile pySpace
  if ws.isEmpty then none else tailVersion (xs.drop ws.length)

/-- The lazy group `(.+?)` followed by `\s+(HTTP/\d\.\d)$`: the target
grows from length one; `.` does not match a newline, and a newline
blocks every longer target through that position. -/
def findTarget (pre : List Char) : List Char → Option (List Char × List Char)
  | [] => none
  | c :: rest =>
    if c = '\n' then none
    else
      match matchTail rest with
      | some v => some (pre ++ [c], v)
      | none => findTarget (pre ++ [c]) rest

/-- The greedy `\s+` after the method: try the maximal whitespace run
first and give characters back to the lazy target one at a time. -/
def matchWithWs (letters afterM : List Char) : Nat → Option (List Char × List Char × List Char)
  | 0 => none
  | w + 1 =>
    match findTarget [] (afterM.drop (w + 1)) with
    | some (t, v) => some (letters, t, v)
    | none => matchWithWs letters afterM w

/-- `re.match` of the request-line pattern: returns the three captured
groups (method token, request-target, version). -/
def matchRequestLine (s : List Char) : Option (List Char × List Char × List Char) :=
  let letters := s.takeWhile asciiLetter
  if letters.isEmpty then none
  else
    let afterM := s.drop letters.length
    matchWithWs letters afterM (afterM.takeWhile pySpace).length

/-- The header block: the text before the first `\r\n\r\n`, split on
`\r\n`, without the request line (headers are empty when the
terminator is absent). -/
def headerLinesOf (text : List Char) : List (List Char) :=
  match takeBefore2CRLF text with
  | none => []
  | some header_text => (splitCRLF header_text).drop 1

/-- One header line: `key, value = line.split(':', 1)` with the key
stripped and lower-cased and the value stripped; lines without a colon
are skipped. -/
def headerEntry (line : List Char) : Option (List Char × List Char) :=
  (splitFirst ':' line).map (fun p => (pyLower (pyStrip p.1), pyStrip p.2))

/-- The header dict, kept as an association list in insertion order
(Python dict assignment overwrites; lookups below take the last
binding, which matches the dict's final value for every key). -/
def parseHeaders (text : List Char) : List (List Char × List Char) :=
  (headerLinesOf text).filterMap headerEntry

/-- `dict.get`: the last binding of the key wins. -/
def dictGet (m : List (List Char × List Char)) (k : List Char) : Option (List Char) :=
  (m.reverse.find? (fun p => p.1 == k)).map (fun p => p.2)

/-! Model of `urllib.parse.urlparse` on `http://` / `https://` targets,
following CPython `urlsplit` and `_hostinfo`. -/

/-- Split the part after `scheme://` into netloc, path and query
(fragment discarded): the netloc stops at the first of `/?#`, the
fragment starts at the first `#` of the remainder, the query follows
the first `?` before the fragment. -/
def urlsplitRest (t : List Char) : List Char × List Char × List Char :=
  let netloc := t.takeWhile (fun c => !(c = '/' || c = '?' || c = '#'))
  let rest := t.drop netloc.length
  let beforeFrag := rest.takeWhile (fun c => c ≠ '#')
  match splitFirst '?' beforeFrag with
  | some p => (netloc, p.1, p.2)
  | none => (netloc, beforeFrag, [])

/-- CPython `_hostinfo`: drop userinfo up to the last `@`; if a `[`
occurs, the hostname is the text between it and the first `]` and the
port text follows the first `:` after the bracket; otherwise split at
the first `:`.  Returns the raw hostname and the port text (if any). -/
def hostinfo (netloc : List Char) : List Char × Option (List Char) :=
  let hostport :=
    match splitLast '@' netloc with
    | some p => p.2
    | none => netloc
  match splitFirst '[' hostport with
  | some p =>
    let hn :=
      match splitFirst ']' p.2 with
      | some q => q
      | none => (p.2, [])
    let portText :=
      match splitFirst ':' hn.2 with
      | some q => q.2
      | none => []
    (hn.1, if portText.isEmpty then none else some portText)
  | none =>
    match splitFirst ':' hostport with
    | some p => (p.1, if p.2.isEmpty then none else some p.2)
    | none => (hostport, none)

/-- CPython `SplitResult.port`: `int(port, 10)`, range-checked to
0–65535; `none` models the `ValueError` the property raises, and
`some none` the absence of a port. -/
def urlPortVal (netloc : List Char) : Option (Option Int) :=
  match (hostinfo netloc).2 with
  | none => some none
  | some pstr =>
    match pyInt pstr with
    | none => none
    | some v => if 0 ≤ v ∧ v ≤ 65535 then some (some v) else none

/-- The absolute-URI branch of `parse_request` (lines 60–71): host is
`parsed.hostname` (lower-cased), port is `parsed.port` if truthy, else
443 for `https`, else 80, and path is `path?query` with `/` as
fallback.  `none` models the `ValueError` from `parsed.port`, which
the enclosing `except` turns into a parse failure. -/
def resolveAbsolute (target scheme : List Char) : Option (List Char × Int × List Char) :=
  let after := target.drop (scheme.length + 3)
  let (netloc, rawPath, query) := urlsplitRest after
  let host := pyLower (hostinfo netloc).1
  match urlPortVal netloc with
  | none => none
  | some portOpt =>
    let port : Int :=
      match portOpt with
      | some v => if v ≠ 0 then v else if scheme = "https".data then 443 else 80
      | none => if scheme = "https".data then 443 else 80
    let path1 := if rawPath.isEmpty then ['/'] else rawPath
    let path2 := if query.isEmpty then path1 else path1 ++ '?' :: query
    some (host, port, path2)

/-- The origin-form branch of `parse_request` (lines 72–83): host and
port come from the `Host` header, split at the last colon, with port
falling back to 80 when `int` fails; the path is the raw target. -/
def resolveOrigin (headers : List (List Char × List Char)) (target : List Char) :
    List Char × Int × List Char :=
  let host_header := (dictGet headers "host".data).getD []
  match splitLast ':' host_header with
  | some p =>
    (p.1, (match pyInt p.2 with | some v => v | none => 80), target)
  | none => (host_header, 80, target)

/-- The request record `parse_request` returns. -/
structure Request where
  method : List Char
  host : List Char
  port : Int
  path : List Char
  request_line : List Char
  headers : List (List Char × List Char)
  version : List Char
  deriving DecidableEq, Repr

/-- `HTTPParser.parse_request`. -/
def parse_request (request_data : List Char) : Option Request :=
  match splitCRLF request_data with
  | [] => none
  | request_line :: _ =>
    match matchRequestLine request_line with
    | none => none
    | some (m, target, version) =>
      let method := pyUpper m
      let headers := parseHeaders request_data
      let resolved :=
        if List.isPrefixOf "http://".data target then
          resolveAbsolute target "http".data
        else if List.isPrefixOf "https://".data target then
          resolveAbsolute target "https".data
        else some (resolveOrigin headers target)
      match resolved with
      | none => none
      | some (host, port, path) =>
        if host.isEmpty then none
        else some ⟨method, host, port, path, request_line, headers, version⟩

/-! ## ProxyServer (src/proxy_server.py)

`_receive_request` is modelled over an explicit schedule of `recv`
results; a `timeout` event models `socket.timeout`, an `err` event any
other receive exception, an empty chunk the peer closing, and an
exhausted schedule a closed peer (every further `recv` returns no
bytes).  `_handle_client` is modelled as the list of externally
observable actions the handler performs, in order; writes to the
client socket are assumed to succeed, and the rule set in force after
`reload_if_changed` is a parameter. -/

/-- One result of `client_socket.recv`. -/
inductive RecvEvent
  | chunk (data : List Char)
  | timeout
  | err
  deriving DecidableEq, Repr

/-- The `Content-Length` extraction inside `_receive_request`
(lines 162–170): scan the header lines; the first line whose lowercase
form starts with `content-length:` and whose value parses as an int
wins; lines that fail to parse are skipped. -/
def extractCL : List (List Char) → Int
  | [] => 0
  | l :: ls =>
    if List.isPrefixOf "content-length:".data (pyLower l) then
      match splitFirst ':' l with
      | some p =>
        (match pyInt (pyStrip p.2) with
         | some v => v
         | none => extractCL ls)
      | none => extractCL ls
    else extractCL ls

/-- The declared content length of a buffer: 0 when the terminator has
not been seen, else `extractCL` over the header text. -/
def declaredCL (data : List Char) : Int :=
  match takeBefore2CRLF data with
  | none => 0
  | some hdr => extractCL (splitCRLF hdr)

/-- The body-reading inner loop of `_receive_request` (lines 173–181):
read until `content_length` body bytes arrived; a closed peer breaks,
a timeout is caught by the outer handler (the buffer is non-empty, so
it returns the data), any other error returns `None`. -/
def receiveBody (data : List Char) : List RecvEvent → Nat → Option (List Char)
  | _, 0 => some data
  | [], _ => some data
  | ev :: rest, n + 1 =>
    match ev with
    | .timeout => some data
    | .err => none
    | .chunk c =>
      if c.isEmpty then some data
      else receiveBody (data ++ c) rest (n + 1 - c.length)

/-- `return data if data else None` after the loop. -/
def finishRecv (data : List Char) : Option (List Char) :=
  if data.isEmpty then none else some data

/-- The main loop of `_receive_request`: accumulate chunks while the
buffer is below `maxSize`; on seeing the `\r\n\r\n` terminator,
extract `Content-Length` and read the body if it is positive. -/
def receiveLoop (maxSize : Nat) (data : List Char) : List RecvEvent → Option (List Char)
  | [] => finishRecv data
  | ev :: rest =>
    if maxSize ≤ data.length then finishRecv data
    else
      match ev with
      | .timeout => if data.isEmpty then none else finishRecv data
      | .err => none
      | .chunk c =>
        if c.isEmpty then finishRecv data
        else
          let d := data ++ c
          match takeBefore2CRLF d with
          | none => receiveLoop maxSize d rest
          | some hdr =>
            let cl := extractCL (splitCRLF hdr)
            if 0 < cl then
              let bodyReceived : Int := d.length - (hdr.length + 4)
              match receiveBody d rest (cl - bodyReceived).toNat with
              | some d2 => finishRecv d2
              | none => none
            else finishRecv d

/-- `ProxyServer._receive_request` with its default
`max_size = 8192`. -/
def receive_request (evs : List RecvEvent) : Option (List Char) :=
  receiveLoop 8192 [] evs

/-- Structured events sent to the logger. -/
inductive Event
  | infoEv (msg : List Char)
  | errorEv (msg : List Char)
  | warningEv (msg : List Char)
  | blockedEv (clientIp : List Char) (clientPort : Int)
      (host : List Char) (port : Int) (request_line : List Char)
  | allowedEv (clientIp : List Char) (clientPort : Int)
      (host : List Char) (port : Int) (request_line : List Char)
      (status : List Char) (size : Nat)
  deriving DecidableEq, Repr

/-- Externally observable actions of a handler, in program order. -/
inductive ProxyAction
  | sendClient (bytes : List Char)
  | connectOrigin (host : List Char) (port : Int)
  | sendOrigin (bytes : List Char)
  | logEvent (e : Event)
  | closeClient
  | closeOrigin
  | releasePermit
  deriving DecidableEq, Repr

/-- Outcome of `socket.connect` to the origin. -/
inductive ConnectOutcome
  | ok
  | timeout
  | failed
  deriving DecidableEq, Repr

/-- Behaviour of the origin and of the scheduler-dependent tunnel
phase, which the handler cannot influence. -/
structure OriginBehavior where
  connect : ConnectOutcome
  responseChunks : List (List Char)
  tunnelActions : List ProxyAction

/-- The response text built in the blocked branch of `_handle_client`
(lines 120–124), by the same string concatenation as the source. -/
def blockedResponse : List Char :=
  "HTTP/1.1 403 Forbidden\r\n".data ++ "Content-Type: text/plain\r\n".data ++
    "Content-Length: 13\r\n".data ++ "Connection: close\r\n\r\n".data ++
    "Access Denied".data

/-- Split on every character satisfying a predicate (each separator
character produces a boundary). -/
def splitPred (p : Char → Bool) : List Char → List (List Char)
  | [] => [[]]
  | c :: rest =>
    if p c then [] :: splitPred p rest
    else
      match splitPred p rest with
      | [] => [[c]]
      | h :: t => (c :: h) :: t

/-- Python `str.split()` with no argument: split on whitespace runs,
discarding empty pieces. -/
def pyWords (xs : List Char) : List (List Char) :=
  (splitPred pySpace xs).filter (fun (w : List Char) => !w.isEmpty)

/-- Python `sub in s` on strings: substring occurrence test. -/
def hasInfix (pat xs : List Char) : Bool :=
  match xs with
  | [] => pat.isEmpty
  | _ :: rest => List.isPrefixOf pat xs || hasInfix pat rest

/-- Status-code extraction from the first response chunk in
`_handle_http_request` (lines 253–261). -/
def statusFromChunk (c : List Char) : List Char :=
  match splitCRLF c with
  | [] => "000".data
  | status_line :: _ =>
    if hasInfix "HTTP".data status_line then
      match pyWords status_line with
      | _ :: code :: _ => code
      | _ => "000".data
    else "000".data

/-- The streaming loop of `_handle_http_request`: each chunk is sent
to the client; the status code comes from the first chunk and the
size is the total byte count. -/
def relayActions (chunks : List (List Char)) : List ProxyAction :=
  chunks.map (fun c => .sendClient c)

/-- `ProxyServer._handle_connect` as an action trace. -/
def handle_connect (cip : List Char) (cport : Int) (host : List Char) (port : Int)
    (request_line : List Char) (origin : OriginBehavior) : List ProxyAction :=
  match origin.connect with
  | .ok =>
    [.connectOrigin host port,
     .sendClient "HTTP/1.1 200 Connection Established\r\n\r\n".data,
     .logEvent (.allowedEv cip cport host port request_line "200".data 0)]
      ++ origin.tunnelActions ++ [.closeOrigin]
  | .timeout =>
    [.connectOrigin host port,
     .logEvent (.errorEv ("Timeout connecting to origin".data)),
     .sendClient "HTTP/1.1 504 Gateway Timeout\r\n\r\n".data, .closeOrigin]
  | .failed =>
    [.connectOrigin host port,
     .logEvent (.errorEv ("Error in CONNECT to origin".data)),
     .sendClient "HTTP/1.1 502 Bad Gateway\r\n\r\n".data, .closeOrigin]

/-- `ProxyServer._handle_http_request` as an action trace. -/
def handle_http_request (cip : List Char) (cport : Int) (host : List Char)
    (port : Int) (request_line : List Char) (request_data : List Char)
    (origin : OriginBehavior) : List ProxyAction :=
  match origin.connect with
  | .ok =>
    let streamed :=
      origin.responseChunks.takeWhile (fun (c : List Char) => !c.isEmpty)
    let status :=
      match streamed with
      | [] => "000".data
      | c :: _ => statusFromChunk c
    let size := (streamed.map List.length).sum
    [.connectOrigin host port, .sendOrigin request_data]
      ++ relayActions streamed
      ++ [.logEvent (.allowedEv cip cport host port request_line status size),
          .closeOrigin]
  | .timeout =>
    [.connectOrigin host port,
     .logEvent (.errorEv ("Timeout connecting to origin".data)),
     .sendClient "HTTP/1.1 504 Gateway Timeout\r\n\r\n".data, .closeOrigin]
  | .failed =>
    [.connectOrigin host port,
     .logEvent (.errorEv ("Error forwarding request to origin".data)),
     .sendClient "HTTP/1.1 502 Bad Gateway\r\n\r\n".data, .closeOrigin]

/-- `ProxyServer._handle_client` as an action trace, from the point
where the request bytes have been received (`requestData = none`
models an empty receive).  `rs` is the rule set in force after
`reload_if_changed()`.  The trailing `closeClient` and
`releasePermit` come from the `finally` block and run on every path. -/
def handle_client (cip : List Char) (cport : Int)
    (requestData : Option (List Char)) (rs : RuleSet)
    (origin : OriginBehavior) : List ProxyAction :=
  let body :=
    match requestData with
    | none => []
    | some rdata =>
      match parse_request rdata with
      | none => [.logEvent (.errorEv ("Failed to parse request".data)), .closeClient]
      | some req =>
        if is_blocked rs req.host then
          [.logEvent (.blockedEv cip cport req.host req.port req.request_line),
           .sendClient blockedResponse, .closeClient]
        else if req.method = "CONNECT".data then
          handle_connect cip cport req.host req.port req.request_line origin
        else
          handle_http_request cip cport req.host req.port req.request_line
            rdata origin
  body ++ [.closeClient, .releasePermit]

/-! ## Lemmas on the byte-stream scanners -/

theorem takeBefore2CRLF_cons_ne (c : Char) (xs : List Char) (hc : c ≠ '\r') :
    takeBefore2CRLF (c :: xs) = (takeBefore2CRLF xs).map (c :: ·) := by
  rw [takeBefore2CRLF.eq_def]
  split <;> simp_all

theorem takeBefore2CRLF_crlf2 (xs : List Char) :
    takeBefore2CRLF ('\r' :: '\n' :: '\r' :: '\n' :: xs) = some [] := by
  rw [takeBefore2CRLF.eq_def]
  rfl

/-- A buffer without any carriage return has no header terminator. -/
theorem takeBefore2CRLF_none (xs : List Char) (h : ∀ c ∈ xs, c ≠ '\r') :
    takeBefore2CRLF xs = none := by
  induction xs with
  | nil => rfl
  | cons c rest ih =>
    rw [takeBefore2CRLF_cons_ne c rest (h c (List.mem_cons_self c rest)),
      ih (fun x hx => h x (List.mem_cons_of_mem c hx))]
    rfl

/-- A buffer containing the terminator has at least four bytes. -/
theorem takeBefore2CRLF_some_length (xs h : List Char)
    (hh : takeBefore2CRLF xs = some h) : 4 ≤ xs.length := by
  induction xs generalizing h with
  | nil => cases hh
  | cons c rest ih =>
    rw [takeBefore2CRLF.eq_def] at hh
    split at hh
    · rename_i tail heq
      rw [heq]
      simp
    · cases hh
    · rename_i c2 rest2 hno heq
      obtain ⟨e1, e2⟩ := List.cons.injEq .. |>.mp heq
      subst e1
      subst e2
      obtain ⟨h2, hh2, _⟩ := Option.map_eq_some'.mp hh
      have := ih h2 hh2
      simp only [List.length_cons]
      omega

/-- The text before the first terminator is stable under appending:
once the terminator has been seen, later bytes do not move it. -/
theorem takeBefore2CRLF_append_some (a b h : List Char)
    (hh : takeBefore2CRLF a = some h) :
    takeBefore2CRLF (a ++ b) = some h := by
  induction a generalizing h with
  | nil => cases hh
  | cons c rest ih =>
    rw [takeBefore2CRLF.eq_def] at hh
    split at hh
    · rename_i tail heq
      obtain ⟨e1, e2⟩ := List.cons.injEq .. |>.mp heq
      subst e1
      subst e2
      cases hh
      simp only [List.cons_append]
      exact takeBefore2CRLF_crlf2 _
    · cases hh
    · rename_i c2 rest2 hno heq
      obtain ⟨e1, e2⟩ := List.cons.injEq .. |>.mp heq
      subst e1
      subst e2
      obtain ⟨h2, hh2, he⟩ := Option.map_eq_some'.mp hh
      subst he
      have hlen := takeBefore2CRLF_some_length rest h2 hh2
      simp only [List.cons_append]
      rw [takeBefore2CRLF.eq_def]
      split
      · rename_i tail2 heq2
        obtain ⟨f1, f2⟩ := List.cons.injEq .. |>.mp heq2
        rcases rest with _ | ⟨x1, _ | ⟨x2, _ | ⟨x3, rest3⟩⟩⟩
        · simp at hlen
        · simp at hlen
        · simp at hlen
        · simp only [List.cons_append, List.cons.injEq] at f2
          exact (hno rest3 f1 (by rw [f2.1, f2.2.1, f2.2.2.1])).elim
      · rename_i heq2
        cases heq2
      · rename_i c3 rest3 hno2 heq2
        obtain ⟨f1, f2⟩ := List.cons.injEq .. |>.mp heq2
        subst f1
        rw [← f2, ih h2 hh2]
        rfl

/-- The body loop only appends to the buffer it was given. -/
theorem receiveBody_prefix (evs : List RecvEvent) (data : List Char) (n : Nat)
    (out : List Char) (hres : receiveBody data evs n = some out) :
    ∃ ext, out = data ++ ext := by
  induction evs generalizing data n with
  | nil =>
    rw [receiveBody.eq_def] at hres
    rcases n with _ | n <;> simp_all
  | cons ev rest ih =>
    rcases n with _ | n
    · rw [receiveBody.eq_def] at hres
      simp_all
    · rw [receiveBody.eq_def] at hres
      rcases ev with c | _ | _
      · simp only at hres
        split at hres
        · exact ⟨[], by simp_all⟩
        · obtain ⟨ext, he⟩ := ih _ _ hres
          exact ⟨c ++ ext, by simp_all⟩
      · exact ⟨[], by simp_all⟩
      · cases hres
      
theorem finishRecv_some (data d : List Char) (h : finishRecv data = some d) :
    d = data := by
  unfold finishRecv at h
  split at h
  · cases h
  · cases h
    rfl

/-- Size bound of the receive loop: the buffer is below 8192 when a
chunk of at most 4096 bytes is appended, so a result that reads no
body never exceeds 8191 + 4096 = 12287 bytes. -/
theorem receiveLoop_bound (evs : List RecvEvent) (data : List Char)
    (h4096 : ∀ c, RecvEvent.chunk c ∈ evs → c.length ≤ 4096)
    (hdl : data.length ≤ 12287) (d : List Char)
    (hres : receiveLoop 8192 data evs = some d)
    (hnb : declaredCL d ≤ 0) :
    d.length ≤ 12287 := by
  induction evs generalizing data with
  | nil =>
    rw [receiveLoop.eq_def] at hres
    rw [finishRecv_some data d hres]
    exact hdl
  | cons ev rest ih =>
    rcases ev with c | _ | _
    all_goals simp only [receiveLoop] at hres
    · by_cases hbig : 8192 ≤ data.length
      case pos =>
        rw [if_pos hbig] at hres
        rw [finishRecv_some data d hres]
        exact hdl
      rw [if_neg hbig] at hres
      by_cases hce : c.isEmpty = true
      case pos =>
        rw [if_pos hce] at hres
        rw [finishRecv_some data d hres]
        exact hdl
      rw [if_neg hce] at hres
      have hc4096 : c.length ≤ 4096 := h4096 c (List.mem_cons_self _ _)
      have hdd : (data ++ c).length ≤ 12287 := by
        simp only [List.length_append]
        omega
      cases hterm : takeBefore2CRLF (data ++ c) with
      | none =>
        rw [hterm] at hres
        exact ih _ (fun x hx => h4096 x (List.mem_cons_of_mem _ hx)) hdd hres
      | some hdr =>
        rw [hterm] at hres
        simp only at hres
        by_cases hcl : 0 < extractCL (splitCRLF hdr)
        · rw [if_pos hcl] at hres
          cases hbody : receiveBody (data ++ c) rest
              (extractCL (splitCRLF hdr) -
                ((data ++ c).length - (hdr.length + 4) : Int)).toNat with
          | none => rw [hbody] at hres; cases hres
          | some d2 =>
            rw [hbody] at hres
            have hd2 : d = d2 := finishRecv_some d2 d hres
            obtain ⟨ext, hext⟩ := receiveBody_prefix _ _ _ _ hbody
            have hterm2 : takeBefore2CRLF d = some hdr := by
              rw [hd2, hext]
              exact takeBefore2CRLF_append_some _ _ _ hterm
            have hcl2 : extractCL (splitCRLF hdr) ≤ 0 := by
              rw [declaredCL, hterm2] at hnb
              exact hnb
            omega
        · rw [if_neg hcl] at hres
          rw [finishRecv_some _ d hres]
          exact hdd
    · by_cases hbig : 8192 ≤ data.length
      case pos =>
        rw [if_pos hbig] at hres
        rw [finishRecv_some data d hres]
        exact hdl
      rw [if_neg hbig] at hres
      split at hres
      · cases hres
      · rw [finishRecv_some data d hres]
        exact hdl
    · by_cases hbig : 8192 ≤ data.length
      case pos =>
        rw [if_pos hbig] at hres
        rw [finishRecv_some data d hres]
        exact hdl
      rw [if_neg hbig] at hres
      cases hres

/-- One no-terminator iteration of the receive loop. -/
theorem receiveLoop_chunk_step (m : Nat) (data c : List Char) (rest : List RecvEvent)
    (h1 : data.length < m) (h2 : c.isEmpty = false)
    (h3 : takeBefore2CRLF (data ++ c) = none) :
    receiveLoop m data (.chunk c :: rest) = receiveLoop m (data ++ c) rest := by
  simp only [receiveLoop, Nat.not_le.mpr h1, if_false, h2, h3,
    Bool.false_eq_true, if_false]

/-- C5 counterexample: the loop checks the 8192-byte limit only before
a `recv` that can return up to 4096 bytes, so the chunk schedule
4095 + 4096 + 4096 (no terminator anywhere) makes `_receive_request`
return a 12287-byte buffer, exceeding the claimed `MAX_REQUEST = 8192`
bound. -/
theorem C5_counterexample :
    receive_request [.chunk (List.replicate 4095 'a'),
        .chunk (List.replicate 4096 'a'), .chunk (List.replicate 4096 'a')] =
      some (List.replicate 12287 'a') ∧ 8192 < 12287 := by
  have hnone : ∀ n : Nat, takeBefore2CRLF (List.replicate n 'a') = none := fun n =>
    takeBefore2CRLF_none _ (fun c hc => by rw [List.eq_of_mem_replicate hc]; decide)
  have hne : ∀ n : Nat, (List.replicate (n + 1) 'a').isEmpty = false := fun _ => rfl
  have e1 : ([] : List Char) ++ List.replicate 4095 'a' = List.replicate 4095 'a' := rfl
  have e2 : List.replicate 4095 'a' ++ List.replicate 4096 'a' =
      List.replicate 8191 'a' := by
    rw [← List.replicate_add]
  have e3 : List.replicate 8191 'a' ++ List.replicate 4096 'a' =
      List.replicate 12287 'a' := by
    rw [← List.replicate_add]
  refine ⟨?_, by norm_num⟩
  unfold receive_request
  rw [receiveLoop_chunk_step 8192 [] _ _ (by simp) (hne 4094)
      (by rw [e1]; exact hnone 4095), e1]
  rw [receiveLoop_chunk_step 8192 _ _ _
      (by rw [List.length_replicate]; norm_num) (hne 4095)
      (by rw [e2]; exact hnone 8191), e2]
  rw [receiveLoop_chunk_step 8192 _ _ _
      (by rw [List.length_replicate]; norm_num) (hne 4095)
      (by rw [e3]; exact hnone 12287), e3]
  rfl

/-- C5 amended: with every `recv` chunk at most 4096 bytes, a returned
request that declares no Content-Length body is at most
8191 + 4096 = 12287 bytes (reading still stops at the terminator, the
buffer limit, a closed socket, or the inactivity timeout, as the
definition of `receiveLoop` shows). -/
theorem C5_receive_bound_amended (evs : List RecvEvent)
    (h4096 : ∀ c, RecvEvent.chunk c ∈ evs → c.length ≤ 4096)
    (d : List Char) (hres : receive_request evs = some d)
    (hnb : declaredCL d ≤ 0) :
    d.length ≤ 12287 :=
  receiveLoop_bound evs [] h4096 (by simp) d hres hnb

def c5input : List Char := "GET / HTTP/1.1\r\n\r\n".data

/-- Witness for C5: the amended bound applied to a concrete one-chunk
schedule. -/
theorem C5_receive_bound_amended_witness :
    receive_request [RecvEvent.chunk c5input] = some c5input ∧
    declaredCL c5input ≤ 0 ∧ c5input.length ≤ 12287 :=
  ⟨by decide, by decide,
   C5_receive_bound_amended [RecvEvent.chunk c5input] (by
      intro c hc
      have h2 : c = c5input := by simpa using hc
      subst h2
      decide) c5input (by decide) (by decide)⟩

/-! ## Claim C2 -/

/-- C2: for every parsed request whose host the filter blocks, the
handler emits exactly one BLOCKED event, sends the client exactly the
403 bytes of the spec, attempts no origin connection, and closes the
client connection (the second `closeClient` is the `finally` block
closing the already-closed socket, and `releasePermit` its semaphore
release). -/
theorem C2_blocked_request_exact_response (cip : List Char) (cport : Int) (rdata : List Char) (rs : RuleSet)
    (origin : OriginBehavior) (req : Request)
    (hp : parse_request rdata = some req)
    (hb : is_blocked rs req.host = true) :
    handle_client cip cport (some rdata) rs origin =
      [.logEvent (.blockedEv cip cport req.host req.port req.request_line),
       .sendClient blockedResponse, .closeClient, .closeClient, .releasePermit] ∧
    blockedResponse = ("HTTP/1.1 403 Forbidden\r\n" ++ "Content-Type: text/plain\r\n"
      ++ "Content-Length: 13\r\n" ++ "Connection: close\r\n\r\n"
      ++ "Access Denied").data ∧
    (handle_client cip cport (some rdata) rs origin).countP
      (fun a => match a with
        | .logEvent (.blockedEv _ _ _ _ _) => true
        | _ => false) = 1 ∧
    (∀ h p, ProxyAction.connectOrigin h p ∉
      handle_client cip cport (some rdata) rs origin) ∧
    ProxyAction.closeClient ∈ handle_client cip cport (some rdata) rs origin := by
  have he : handle_client cip cport (some rdata) rs origin =
      [.logEvent (.blockedEv cip cport req.host req.port req.request_line),
       .sendClient blockedResponse, .closeClient, .closeClient, .releasePermit] := by
    simp only [handle_client, hp, hb, if_true]
    rfl
  refine ⟨he, by decide, ?_, ?_, ?_⟩
  · rw [he]
    rfl
  · intro h p
    rw [he]
    intro hmem
    simp only [List.mem_cons, List.not_mem_nil] at hmem
    rcases hmem with h1 | h1 | h1 | h1 | h1 | h1 <;> cases h1
  · rw [he]
    simp

/-- Concrete rule set for the C2 witness. -/
def c2rs : RuleSet := ⟨["blocked.test".data], [], []⟩
/-- Concrete request bytes for the C2 witness. -/
def c2data : List Char := "GET http://blocked.test/x HTTP/1.1\r\nHost: blocked.test\r\n\r\n".data
/-- The record `parse_request` produces for `c2data`. -/
def c2req : Request :=
  ⟨"GET".data, "blocked.test".data, 80, "/x".data,
   "GET http://blocked.test/x HTTP/1.1".data,
   [("host".data, "blocked.test".data)], "HTTP/1.1".data⟩

/-- Witness for C2: the blocked-branch trace at a concrete request and
rule set. -/
theorem C2_blocked_request_exact_response_witness :
    parse_request c2data = some c2req ∧
    is_blocked c2rs c2req.host = true ∧
    handle_client "127.0.0.1".data 50000 (some c2data) c2rs ⟨.ok, [], []⟩ =
      [.logEvent (.blockedEv "127.0.0.1".data 50000 c2req.host c2req.port
        c2req.request_line),
       .sendClient blockedResponse, .closeClient, .closeClient, .releasePermit] :=
  ⟨by decide, by decide,
   (C2_blocked_request_exact_response "127.0.0.1".data 50000 c2data c2rs ⟨.ok, [], []⟩ c2req
      (by decide) (by decide)).1⟩

/-! ## Symbolic lemmas for `parse_request` on request families

The claims C6–C9 quantify over families of request texts (an arbitrary
method token, port digit string, or request-target).  The lemmas below
evaluate the parser symbolically on texts of the shape
`token SP target SP version CRLF concrete-headers`. -/

/-- Splitting on CRLF steps over a non-CR character. -/
theorem splitCRLF_cons_ne (c : Char) (xs : List Char) (hc : c ≠ '\r') :
    splitCRLF (c :: xs) =
      (match splitCRLF xs with
       | [] => [[c]]
       | h :: t => (c :: h) :: t) := by
  rw [splitCRLF.eq_def]
  split <;> simp_all

/-- Splitting on CRLF consumes a leading CRLF. -/
theorem splitCRLF_crlf (xs : List Char) :
    splitCRLF ('\r' :: '\n' :: xs) = [] :: splitCRLF xs := by
  rw [splitCRLF.eq_def]
  rfl

/-- `str.split` never returns an empty list. -/
theorem splitCRLF_ne_nil (xs : List Char) : splitCRLF xs ≠ [] := by
  induction xs with
  | nil => simp [splitCRLF]
  | cons c rest ih =>
    by_cases hc : c = '\r'
    · subst hc
      rcases rest with _ | ⟨c2, rest2⟩
      · simp [splitCRLF]
      · by_cases hc2 : c2 = '\n'
        · subst hc2
          rw [splitCRLF_crlf]
          simp
        · rw [splitCRLF.eq_def]
          split
          · simp
          · simp
          · split <;> simp
    · rw [splitCRLF_cons_ne c rest hc]
      split <;> simp

/-- Splitting at the first CRLF after a CR-free prefix. -/
theorem splitCRLF_append (a b : List Char) (ha : ∀ c ∈ a, c ≠ '\r') :
    splitCRLF (a ++ '\r' :: '\n' :: b) = a :: splitCRLF b := by
  induction a with
  | nil => simpa using splitCRLF_crlf b
  | cons c a2 ih =>
    rw [List.cons_append, splitCRLF_cons_ne c _ (ha c (List.mem_cons_self c a2)),
      ih (fun x hx => ha x (List.mem_cons_of_mem c hx))]

/-- The header-terminator search skips a CR-free prefix. -/
theorem takeBefore2CRLF_append_left (a b : List Char) (ha : ∀ c ∈ a, c ≠ '\r') :
    takeBefore2CRLF (a ++ b) = (takeBefore2CRLF b).map (a ++ ·) := by
  induction a with
  | nil => simp
  | cons c a2 ih =>
    rw [List.cons_append, takeBefore2CRLF_cons_ne c _ (ha c (List.mem_cons_self c a2)),
      ih (fun x hx => ha x (List.mem_cons_of_mem c hx))]
    cases takeBefore2CRLF b <;> rfl

/-- No occurrence of the separator means no split. -/
theorem splitFirst_none (sep : Char) (xs : List Char) (h : ∀ c ∈ xs, c ≠ sep) :
    splitFirst sep xs = none := by
  induction xs with
  | nil => rfl
  | cons c rest ih =>
    rw [splitFirst, if_neg (h c (List.mem_cons_self c rest)),
      ih (fun x hx => h x (List.mem_cons_of_mem c hx))]
    rfl

/-- The first occurrence of the separator after a clean prefix. -/
theorem splitFirst_append (sep : Char) (a b : List Char) (ha : ∀ c ∈ a, c ≠ sep) :
    splitFirst sep (a ++ sep :: b) = some (a, b) := by
  induction a with
  | nil => simp [splitFirst]
  | cons c a2 ih =>
    rw [List.cons_append, splitFirst, if_neg (ha c (List.mem_cons_self c a2)),
      ih (fun x hx => ha x (List.mem_cons_of_mem c hx))]
    rfl

/-- `takeWhile` passes over a segment it accepts entirely. -/
theorem takeWhile_append_all (p : Char → Bool) (u v : List Char)
    (hu : ∀ c ∈ u, p c = true) :
    (u ++ v).takeWhile p = u ++ v.takeWhile p := by
  induction u with
  | nil => rfl
  | cons c u2 ih =>
    rw [List.cons_append, List.takeWhile_cons_of_pos (hu c (List.mem_cons_self c u2)),
      ih (fun x hx => hu x (List.mem_cons_of_mem c hx))]
    rfl

/-- The version text of the request-line families below. -/
def ver11 : List Char := "HTTP/1.1".data

/-- The pattern tail cannot match where no whitespace follows. -/
theorem matchTail_nonspace (xs rest : List Char) (c : Char)
    (hc : pySpace c = false) (hxs : xs = c :: rest) : matchTail xs = none := by
  subst hxs
  unfold matchTail
  rw [List.takeWhile_cons_of_neg (by simp [hc])]
  rfl

/-- On a target without whitespace, the lazy group takes exactly the
text before the final ` HTTP/1.1`. -/
theorem findTarget_family (t : List Char) (pre : List Char)
    (htne : t ≠ []) (htS : ∀ c ∈ t, pySpace c = false) :
    findTarget pre (t ++ ' ' :: ver11) = some (pre ++ t, ver11) := by
  induction t generalizing pre with
  | nil => exact absurd rfl htne
  | cons c t2 ih =>
    have hc : pySpace c = false := htS c (List.mem_cons_self c t2)
    have hcn : c ≠ '\n' := by
      intro he
      subst he
      simp [pySpace] at hc
    rw [List.cons_append, findTarget, if_neg hcn]
    rcases t2 with _ | ⟨c2, t3⟩
    · rw [show ([] : List Char) ++ ' ' :: ver11 = ' ' :: ver11 from rfl]
      rw [show matchTail (' ' :: ver11) = some ver11 from rfl]
    · have hc2 : pySpace c2 = false :=
        htS c2 (List.mem_cons_of_mem c (List.mem_cons_self c2 t3))
      rw [matchTail_nonspace ((c2 :: t3) ++ ' ' :: ver11) (t3 ++ ' ' :: ver11) c2 hc2 rfl]
      rw [ih (pre ++ [c]) (by simp) (fun x hx => htS x (List.mem_cons_of_mem c hx))]
      simp

/-- The method run stops at the first space. -/
theorem takeWhile_letters (tok rest : List Char)
    (htokA : ∀ c ∈ tok, asciiLetter c = true) :
    (tok ++ ' ' :: rest).takeWhile asciiLetter = tok := by
  rw [takeWhile_append_all asciiLetter tok _ htokA]
  rw [List.takeWhile_cons_of_neg (by decide)]
  simp

/-- The request-line pattern on `token SP target SP HTTP/1.1`: the
groups are the letter token, the whitespace-free target, and the
version. -/
theorem matchRequestLine_family (tok t : List Char)
    (htokne : tok ≠ []) (htokA : ∀ c ∈ tok, asciiLetter c = true)
    (htne : t ≠ []) (htS : ∀ c ∈ t, pySpace c = false) :
    matchRequestLine (tok ++ ' ' :: (t ++ ' ' :: ver11)) = some (tok, t, ver11) := by
  simp only [matchRequestLine]
  rw [takeWhile_letters tok (t ++ ' ' :: ver11) htokA]
  rw [if_neg (by simpa [List.isEmpty_iff] using htokne)]
  rw [List.drop_left]
  have hts : (' ' :: (t ++ ' ' :: ver11)).takeWhile pySpace = [' '] := by
    rcases t with _ | ⟨c, t2⟩
    · exact absurd rfl htne
    · rw [show ((c :: t2) ++ ' ' :: ver11) = c :: (t2 ++ ' ' :: ver11) from rfl]
      rw [List.takeWhile_cons_of_pos (by decide),
        List.takeWhile_cons_of_neg (by simp [htS c (List.mem_cons_self c t2)])]
  rw [hts]
  rw [show ([' '] : List Char).length = 1 from rfl]
  rw [matchWithWs]
  rw [show (' ' :: (t ++ ' ' :: ver11)).drop (0 + 1) = t ++ ' ' :: ver11 from rfl]
  rw [findTarget_family t [] htne (fun c hc => htS c hc)]
  rfl

/-- `parse_request` on a family request text: the request line is
matched into its three groups, the headers come from the concrete
tail, and the result reduces to the host/port/path resolution on the
target. -/
theorem parse_request_family (tok t hb hpart : List Char)
    (htokne : tok ≠ []) (htokA : ∀ c ∈ tok, asciiLetter c = true)
    (htne : t ≠ []) (htS : ∀ c ∈ t, pySpace c = false)
    (hh : takeBefore2CRLF ('\r' :: '\n' :: hb) = some ('\r' :: '\n' :: hpart)) :
    parse_request ((tok ++ ' ' :: (t ++ ' ' :: ver11)) ++ '\r' :: '\n' :: hb) =
      (match (if List.isPrefixOf "http://".data t then
                resolveAbsolute t "http".data
              else if List.isPrefixOf "https://".data t then
                resolveAbsolute t "https".data
              else some (resolveOrigin ((splitCRLF hpart).filterMap headerEntry) t)) with
       | none => none
       | some (host, port, path) =>
         if host.isEmpty then none
         else some ⟨pyUpper tok, host, port, path,
                    tok ++ ' ' :: (t ++ ' ' :: ver11),
                    (splitCRLF hpart).filterMap headerEntry, ver11⟩) := by
  have hline0 : ∀ c ∈ tok ++ ' ' :: (t ++ ' ' :: ver11), c ≠ '\r' := by
    intro c hc
    simp only [List.mem_append, List.mem_cons] at hc
    rcases hc with h | h | h | h | h
    · intro he
      subst he
      have := htokA _ h
      simp [asciiLetter] at this
    · subst h
      decide
    · intro he
      subst he
      have := htS _ h
      simp [pySpace] at this
    · subst h
      decide
    · revert h
      have : ∀ x ∈ ver11, x ≠ '\r' := by decide
      exact this c
  have hsplit : splitCRLF ((tok ++ ' ' :: (t ++ ' ' :: ver11)) ++ '\r' :: '\n' :: hb)
      = (tok ++ ' ' :: (t ++ ' ' :: ver11)) :: splitCRLF hb :=
    splitCRLF_append _ _ hline0
  have htake : takeBefore2CRLF ((tok ++ ' ' :: (t ++ ' ' :: ver11)) ++ '\r' :: '\n' :: hb)
      = some ((tok ++ ' ' :: (t ++ ' ' :: ver11)) ++ '\r' :: '\n' :: hpart) := by
    rw [takeBefore2CRLF_append_left _ _ hline0, hh]
    rfl
  have hheaders : parseHeaders ((tok ++ ' ' :: (t ++ ' ' :: ver11)) ++ '\r' :: '\n' :: hb)
      = (splitCRLF hpart).filterMap headerEntry := by
    unfold parseHeaders headerLinesOf
    rw [htake]
    show List.filterMap headerEntry
        (List.drop 1 (splitCRLF ((tok ++ ' ' :: (t ++ ' ' :: ver11)) ++ '\r' :: '\n' :: hpart)))
      = List.filterMap headerEntry (splitCRLF hpart)
    rw [splitCRLF_append _ _ hline0]
    rfl
  simp only [parse_request, hsplit, hheaders,
    matchRequestLine_family tok t htokne htokA htne htS]

/-- Unsigned comparison against 65 read off on `toNat`. -/
theorem uint32_le_left (v : UInt32) : ((65 : UInt32) ≤ v) ↔ (65 ≤ v.toNat) := Iff.rfl

/-- Unsigned comparison against 90 read off on `toNat`. -/
theorem uint32_le_right (v : UInt32) : (v ≤ (90 : UInt32)) ↔ (v.toNat ≤ 90) := Iff.rfl

/-- `Char.isUpper` as an arithmetic condition on the code point. -/
theorem char_isUpper_iff (c : Char) :
    c.isUpper = true ↔ (65 ≤ c.toNat ∧ c.toNat ≤ 90) := by
  unfold Char.isUpper
  rw [Bool.and_eq_true, decide_eq_true_eq, decide_eq_true_eq]
  exact and_congr (ge_iff_le.trans (uint32_le_left c.val)) (uint32_le_right c.val)

/-- `Char.ofNat` below the surrogate range keeps the code point. -/
theorem toNat_ofNat_valid (n : Nat) (h : n < 55296) : (Char.ofNat n).toNat = n := by
  unfold Char.ofNat
  rw [dif_pos (Or.inl h)]
  rfl

/-- Lower-casing never produces an uppercase letter. -/
theorem toLower_not_upper (c : Char) : (Char.toLower c).isUpper = false := by
  show (if c.toNat ≥ 65 ∧ c.toNat ≤ 90 then Char.ofNat (c.toNat + 32) else c).isUpper
    = false
  split
  · rename_i h
    rw [Bool.eq_false_iff]
    intro hu
    rw [char_isUpper_iff] at hu
    rw [toNat_ofNat_valid (c.toNat + 32) (by omega)] at hu
    omega
  · rename_i h
    rw [Bool.eq_false_iff]
    intro hu
    rw [char_isUpper_iff] at hu
    omega

/-- A digit differs from any non-digit character. -/
theorem digit_ne (c x : Char) (h : c.isDigit = true) (hx : x.isDigit = false) :
    c ≠ x := by
  intro he
  subst he
  rw [h] at hx
  cases hx

/-- Digits are not whitespace. -/
theorem pySpace_digit (c : Char) (h : c.isDigit = true) : pySpace c = false := by
  unfold pySpace
  simp [digit_ne c ' ' h (by decide), digit_ne c '\t' h (by decide),
    digit_ne c '\n' h (by decide), digit_ne c '\r' h (by decide),
    digit_ne c '\x0b' h (by decide), digit_ne c '\x0c' h (by decide)]

/-- Concrete header tail for the C6 and C8 request families. -/
def c6hb : List Char := "Host: example.test\r\n\r\n".data

/-- Header text before the terminator, for `c6hb`. -/
def c6hpart : List Char := "Host: example.test".data

/-- C6 amended: the request-line pattern is compiled with
`re.IGNORECASE`, so a method token of letters in either case is
accepted and the stored method is its upper-casing; in particular the
lowercase method `get` parses successfully with method `GET`. -/
theorem C6_method_case_amended :
    (∀ tok : List Char, tok ≠ [] → (∀ c ∈ tok, asciiLetter c = true) →
      parse_request ((tok ++ ' ' :: ("http://example.test/".data ++ ' ' :: ver11))
          ++ '\r' :: '\n' :: c6hb) =
        some ⟨pyUpper tok, "example.test".data, 80, "/".data,
              tok ++ ' ' :: ("http://example.test/".data ++ ' ' :: ver11),
              [("host".data, "example.test".data)], ver11⟩) ∧
    parse_request "get http://example.test/ HTTP/1.1\r\nHost: example.test\r\n\r\n".data =
      some ⟨"GET".data, "example.test".data, 80, "/".data,
            "get http://example.test/ HTTP/1.1".data,
            [("host".data, "example.test".data)], "HTTP/1.1".data⟩ := by
  constructor
  · intro tok h1 h2
    rw [parse_request_family tok "http://example.test/".data c6hb c6hpart h1 h2
      (by decide) (by decide) (by decide)]
    rfl
  · decide

/-- Every successful parse has a non-empty host (the code's
`if not host: return None` guard). -/
theorem parse_request_host_ne (s : List Char) (r : Request)
    (h : parse_request s = some r) : r.host ≠ [] := by
  simp only [parse_request] at h
  split at h
  · cases h
  · split at h
    · cases h
    · split at h
      · cases h
      · split at h
        · cases h
        · rename_i hguard
          injection h with h2
          subst h2
          simpa [List.isEmpty_iff] using hguard

/-- A present URI port is range-checked to 0–65535 by `urlparse`. -/
theorem urlPortVal_range (netloc : List Char) (v : Int)
    (h : urlPortVal netloc = some (some v)) : 0 ≤ v ∧ v ≤ 65535 := by
  unfold urlPortVal at h
  split at h
  · cases h
  · split at h
    · cases h
    · split at h
      · rename_i hrange
        injection h with h2
        injection h2 with h3
        subst h3
        exact hrange
      · cases h

/-- Absolute-form resolution lower-cases the host and yields a port
in 1..65535 (an explicit port is range-checked, the defaults are 443
and 80, and an explicit port 0 is falsy and replaced by a default). -/
theorem resolveAbsolute_inv (target scheme host : List Char) (port : Int)
    (path : List Char) (h : resolveAbsolute target scheme = some (host, port, path)) :
    (∀ c ∈ host, c.isUpper = false) ∧ 1 ≤ port ∧ port ≤ 65535 := by
  simp only [resolveAbsolute] at h
  split at h
  · cases h
  · rename_i portOpt hport
    rcases portOpt with _ | v
    all_goals dsimp only at h
    · injection h with h2
      rw [Prod.mk.injEq, Prod.mk.injEq] at h2
      obtain ⟨hh, hp, _⟩ := h2
      subst hh
      subst hp
      refine ⟨?_, ?_⟩
      · intro c hc
        simp only [pyLower, List.mem_map] at hc
        obtain ⟨a, _, rfl⟩ := hc
        exact toLower_not_upper a
      · constructor <;> (split <;> omega)
    · have hr := urlPortVal_range _ v hport
      injection h with h2
      rw [Prod.mk.injEq, Prod.mk.injEq] at h2
      obtain ⟨hh, hp, _⟩ := h2
      subst hh
      subst hp
      refine ⟨?_, ?_⟩
      · intro c hc
        simp only [pyLower, List.mem_map] at hc
        obtain ⟨a, _, rfl⟩ := hc
        exact toLower_not_upper a
      · constructor <;> (split <;> (try split) <;> omega)

/-- C7 counterexample: the origin-form request with header
`Host: EXAMPLE.Test:99999` parses successfully into a record whose
host keeps its uppercase letters and whose port 99999 lies outside
1..65535 — both record invariants of the claim fail. -/
theorem C7_counterexample :
    (parse_request "GET /x HTTP/1.1\r\nHost: EXAMPLE.Test:99999\r\n\r\n".data).map
      Request.host = some "EXAMPLE.Test".data ∧
    (parse_request "GET /x HTTP/1.1\r\nHost: EXAMPLE.Test:99999\r\n\r\n".data).map
      Request.port = some 99999 ∧
    ('E' ∈ "EXAMPLE.Test".data ∧ 'E'.isUpper = true) ∧ (65535 : Int) < 99999 := by
  decide

/-- C7 amended: every parsed record has a non-empty host; for
absolute-form targets the host is lower-case and the port lies in
1..65535; origin-form requests take the Host header verbatim and do
not range-check a numeric port. -/
theorem C7_record_invariants_amended :
    (∀ (s : List Char) (r : Request), parse_request s = some r → r.host ≠ []) ∧
    (∀ (target scheme host : List Char) (port : Int) (path : List Char),
      resolveAbsolute target scheme = some (host, port, path) →
      (∀ c ∈ host, c.isUpper = false) ∧ 1 ≤ port ∧ port ≤ 65535) :=
  ⟨parse_request_host_ne, resolveAbsolute_inv⟩

/-- Witness for C7: both halves of the amended claim applied at
concrete inputs. -/
theorem C7_record_invariants_amended_witness :
    (parse_request "GET http://EXAMPLE.test/x HTTP/1.1\r\nHost: EXAMPLE.test\r\n\r\n".data =
      some ⟨"GET".data, "example.test".data, 80, "/x".data,
        "GET http://EXAMPLE.test/x HTTP/1.1".data,
        [("host".data, "EXAMPLE.test".data)], "HTTP/1.1".data⟩) ∧
    ("example.test".data ≠ []) ∧
    (resolveAbsolute "http://EXAMPLE.test:8080/x".data "http".data =
      some ("example.test".data, 8080, "/x".data)) ∧
    ((∀ c ∈ "example.test".data, c.isUpper = false) ∧
      (1 : Int) ≤ 8080 ∧ (8080 : Int) ≤ 65535) :=
  ⟨by decide,
   C7_record_invariants_amended.1 "GET http://EXAMPLE.test/x HTTP/1.1\r\nHost: EXAMPLE.test\r\n\r\n".data
     ⟨"GET".data, "example.test".data, 80, "/x".data,
      "GET http://EXAMPLE.test/x HTTP/1.1".data,
      [("host".data, "EXAMPLE.test".data)], "HTTP/1.1".data⟩ (by decide),
   by decide,
   C7_record_invariants_amended.2 "http://EXAMPLE.test:8080/x".data "http".data "example.test".data 8080
     "/x".data (by decide)⟩

/-- `dropWhile` is the identity when no element satisfies the test. -/
theorem dropWhile_eq_self (p : Char → Bool) (xs : List Char)
    (h : ∀ c ∈ xs, p c = false) : xs.dropWhile p = xs := by
  cases xs with
  | nil => rfl
  | cons c rest =>
    rw [List.dropWhile_cons_of_neg]
    simp [h c (List.mem_cons_self c rest)]

/-- Stripping is the identity on whitespace-free text. -/
theorem pyStrip_eq_self (xs : List Char) (h : ∀ c ∈ xs, pySpace c = false) :
    pyStrip xs = xs := by
  unfold pyStrip
  rw [dropWhile_eq_self pySpace xs h,
    dropWhile_eq_self pySpace xs.reverse (fun c hc => h c (List.mem_reverse.mp hc)),
    List.reverse_reverse]

/-- A non-empty digit string is accepted by the `int` digit check. -/
theorem pyIntDigits_all_digits (ds : List Char) (hne : ds ≠ [])
    (h : ∀ c ∈ ds, c.isDigit = true) : pyIntDigits ds = true := by
  induction ds with
  | nil => exact absurd rfl hne
  | cons c rest ih =>
    rcases rest with _ | ⟨c2, rest2⟩
    · simp [pyIntDigits, h c (List.mem_cons_self c [])]
    · have hc2 : c2.isDigit = true := h c2 (by simp)
      have hne2 : c2 ≠ '_' := digit_ne c2 '_' hc2 (by decide)
      rw [pyIntDigits.eq_def]
      split
      · rename_i heq
        cases heq
      · rename_i heq
        injection heq with e1 e2
        exact (List.cons_ne_nil _ _ e2).elim
      · rename_i heq
        injection heq with e1 e2
        injection e2 with e3 e4
        exact absurd e3 hne2
      · rename_i heq
        injection heq with e1 e2
        subst e1
        subst e2
        rw [Bool.and_eq_true]
        exact ⟨h c (by simp), ih (by simp)
          (fun x hx => h x (List.mem_cons_of_mem c hx))⟩

/-- Python `int` on a non-empty digit string gives its decimal value. -/
theorem pyInt_digits (ds : List Char) (hne : ds ≠ [])
    (h : ∀ c ∈ ds, c.isDigit = true) :
    pyInt ds = some ((digitsVal ds : Int)) := by
  have hstrip : pyStrip ds = ds :=
    pyStrip_eq_self ds (fun c hc => pySpace_digit c (h c hc))
  have hfil : ds.filter (fun c => c ≠ '_') = ds :=
    List.filter_eq_self.mpr (fun a ha => by
      simp [digit_ne a '_' (h a ha) (by decide)])
  rcases ds with _ | ⟨d, rest⟩
  · exact absurd rfl hne
  · have hd : d.isDigit = true := h d (by simp)
    simp only [pyInt, hstrip]
    split
    · rename_i heq
      injection heq with e1 _
      exact absurd e1 (digit_ne d '+' hd (by decide))
    · rename_i heq
      injection heq with e1 _
      exact absurd e1 (digit_ne d '-' hd (by decide))
    · rw [if_pos (pyIntDigits_all_digits _ hne h)]
      unfold pyIntDigitsVal
      rw [hfil]

/-- The absolute-URI branch fails on an explicitly written port above
65535: `parsed.port` raises and the parser returns no record. -/
theorem resolveAbsolute_bigport (ds : List Char) (hne : ds ≠ [])
    (hd : ∀ c ∈ ds, c.isDigit = true) (hbig : 65535 < digitsVal ds) :
    resolveAbsolute ("http://example.test:".data ++ (ds ++ ['/'])) "http".data
      = none := by
  have hsep : ∀ c ∈ ds, (!(c = '/' || c = '?' || c = '#')) = true := fun c hc => by
    simp [digit_ne c '/' (hd c hc) (by decide),
      digit_ne c '?' (hd c hc) (by decide), digit_ne c '#' (hd c hc) (by decide)]
  have hafter : ("http://example.test:".data ++ (ds ++ ['/'])).drop
      ("http".data.length + 3) = "example.test:".data ++ (ds ++ ['/']) := rfl
  have hnetloc : ("example.test:".data ++ (ds ++ ['/'])).takeWhile
      (fun c => !(c = '/' || c = '?' || c = '#')) = "example.test:".data ++ ds := by
    rw [takeWhile_append_all _ "example.test:".data _ (by decide),
      takeWhile_append_all _ ds _ hsep,
      List.takeWhile_cons_of_neg (by decide)]
    simp
  have hrest : ("example.test:".data ++ (ds ++ ['/'])).drop
      ("example.test:".data ++ ds).length = ['/'] := by
    rw [show "example.test:".data ++ (ds ++ ['/'])
        = ("example.test:".data ++ ds) ++ ['/'] from (List.append_assoc _ _ _).symm]
    exact List.drop_left _ _
  have hurl : urlsplitRest ("example.test:".data ++ (ds ++ ['/']))
      = ("example.test:".data ++ ds, ['/'], []) := by
    simp only [urlsplitRest, hnetloc, hrest]
    rfl
  have hsplitLast : splitLast '@' ("example.test:".data ++ ds) = none := by
    unfold splitLast
    rw [splitFirst_none '@' _ (by
      intro c hc
      rw [List.mem_reverse] at hc
      rcases List.mem_append.mp hc with h1 | h1
      · revert h1
        have : ∀ x ∈ "example.test:".data, x ≠ '@' := by decide
        exact this c
      · exact digit_ne c '@' (hd c h1) (by decide))]
    rfl
  have hbr : splitFirst '[' ("example.test:".data ++ ds) = none := by
    apply splitFirst_none
    intro c hc
    rcases List.mem_append.mp hc with h1 | h1
    · revert h1
      have : ∀ x ∈ "example.test:".data, x ≠ '[' := by decide
      exact this c
    · exact digit_ne c '[' (hd c h1) (by decide)
  have hcolon : splitFirst ':' ("example.test:".data ++ ds)
      = some ("example.test".data, ds) := by
    rw [show "example.test:".data ++ ds = "example.test".data ++ ':' :: ds from rfl]
    exact splitFirst_append ':' _ ds (by decide)
  have hhostinfo : hostinfo ("example.test:".data ++ ds)
      = ("example.test".data, some ds) := by
    simp only [hostinfo, hsplitLast, hbr, hcolon]
    rw [if_neg (by simpa [List.isEmpty_iff] using hne)]
  have hport : urlPortVal ("example.test:".data ++ ds) = none := by
    simp only [urlPortVal, hhostinfo]
    rw [pyInt_digits ds hne hd]
    show (if (0 : Int) ≤ (digitsVal ds : Int) ∧ (digitsVal ds : Int) ≤ 65535 then
        some (some ((digitsVal ds : Int))) else none) = none
    rw [if_neg (by omega)]
  simp only [resolveAbsolute, hafter, hurl, hport]

/-- C8 amended: an absolute URI whose explicitly written port exceeds
65535 is a parse failure, but an explicitly written port 0 is falsy in
`if parsed.port:` and parses successfully with the scheme default
port 80. -/
theorem C8_uri_port_amended :
    (∀ ds : List Char, ds ≠ [] → (∀ c ∈ ds, c.isDigit = true) →
      65535 < digitsVal ds →
      parse_request (("GET".data ++ ' ' ::
          (("http://example.test:".data ++ (ds ++ ['/'])) ++ ' ' :: ver11))
        ++ '\r' :: '\n' :: c6hb) = none) ∧
    (parse_request
      "GET http://example.test:0/ HTTP/1.1\r\nHost: example.test\r\n\r\n".data).map
      Request.port = some 80 := by
  constructor
  · intro ds hne hd hbig
    rw [parse_request_family "GET".data _ c6hb c6hpart (by decide) (by decide)
      (by simp) (by
        intro c hc
        rcases List.mem_append.mp hc with h1 | h1
        · revert h1
          have : ∀ x ∈ "http://example.test:".data, pySpace x = false := by decide
          exact this c
        · rcases List.mem_append.mp h1 with h2 | h2
          · exact pySpace_digit c (hd c h2)
          · revert h2
            have : ∀ x ∈ ['/'], pySpace x = false := by decide
            exact this c)
      (by decide)]
    have hpre : List.isPrefixOf "http://".data
        ("http://example.test:".data ++ (ds ++ ['/'])) = true := rfl
    rw [if_pos hpre, resolveAbsolute_bigport ds hne hd hbig]
  · decide

/-- Concrete header tail for the C9 request family. -/
def c9hb : List Char := "Host: [::1]:8080\r\n\r\n".data

/-- Header text before the terminator, for `c9hb`. -/
def c9hpart : List Char := "Host: [::1]:8080".data

/-- C9 amended: an origin-form request whose Host header is
`[::1]:8080` parses with the port 8080 but with the host string
`[::1]` retaining the brackets (the rightmost-colon split does not
strip them). -/
theorem C9_ipv6_host_amended :
    ∀ t : List Char, t ≠ [] → (∀ c ∈ t, pySpace c = false) →
      List.isPrefixOf "http://".data t = false →
      List.isPrefixOf "https://".data t = false →
      parse_request (("GET".data ++ ' ' :: (t ++ ' ' :: ver11))
          ++ '\r' :: '\n' :: c9hb) =
        some ⟨"GET".data, "[::1]".data, 8080, t,
              "GET".data ++ ' ' :: (t ++ ' ' :: ver11),
              [("host".data, "[::1]:8080".data)], ver11⟩ := by
  intro t h1 h2 h3 h4
  rw [parse_request_family "GET".data t c9hb c9hpart (by decide) (by decide) h1 h2
    (by decide)]
  rw [if_neg (by simp [h3]), if_neg (by simp [h4])]
  rfl

/-- C6 counterexample: the request line `get http://example.test/
HTTP/1.1` — lowercase method — parses successfully (the claim says it
must fail), with the method stored as `GET`. -/
theorem C6_counterexample :
    (parse_request
      "get http://example.test/ HTTP/1.1\r\nHost: example.test\r\n\r\n".data).isSome
      = true ∧
    (parse_request
      "get http://example.test/ HTTP/1.1\r\nHost: example.test\r\n\r\n".data).map
      Request.method = some "GET".data := by
  decide

/-- Witness for C6: the family applied at the lowercase token `get`. -/
theorem C6_method_case_amended_witness :
    ("get".data ≠ [] ∧ (∀ c ∈ "get".data, asciiLetter c = true)) ∧
    parse_request (("get".data ++ ' ' :: ("http://example.test/".data ++ ' ' :: ver11))
        ++ '\r' :: '\n' :: c6hb) =
      some ⟨pyUpper "get".data, "example.test".data, 80, "/".data,
            "get".data ++ ' ' :: ("http://example.test/".data ++ ' ' :: ver11),
            [("host".data, "example.test".data)], ver11⟩ :=
  ⟨⟨by decide, by decide⟩, C6_method_case_amended.1 "get".data (by decide) (by decide)⟩

/-- C8 counterexample: the absolute URI `http://example.test:0/` with
explicitly written port 0 parses successfully (the claim says it must
fail), with port 80. -/
theorem C8_counterexample :
    (parse_request
      "GET http://example.test:0/ HTTP/1.1\r\nHost: example.test\r\n\r\n".data).isSome
      = true ∧
    (parse_request
      "GET http://example.test:0/ HTTP/1.1\r\nHost: example.test\r\n\r\n".data).map
      Request.port = some 80 := by
  decide

/-- Witness for C8: the amended failure applied at the digit string
`99999`. -/
theorem C8_uri_port_amended_witness :
    ("99999".data ≠ [] ∧ (∀ c ∈ "99999".data, c.isDigit = true) ∧
      65535 < digitsVal "99999".data) ∧
    parse_request (("GET".data ++ ' ' ::
        (("http://example.test:".data ++ ("99999".data ++ ['/'])) ++ ' ' :: ver11))
      ++ '\r' :: '\n' :: c6hb) = none :=
  ⟨⟨by decide, by decide, by decide⟩,
   C8_uri_port_amended.1 "99999".data (by decide) (by decide) (by decide)⟩

/-- C9 counterexample: parsing `GET /p` with Host `[::1]:8080` gives
host `[::1]`, not the claimed bracket-free `::1` (the port is 8080 as
claimed). -/
theorem C9_counterexample :
    (parse_request "GET /p HTTP/1.1\r\nHost: [::1]:8080\r\n\r\n".data).map
      Request.host = some "[::1]".data ∧
    (parse_request "GET /p HTTP/1.1\r\nHost: [::1]:8080\r\n\r\n".data).map
      Request.port = some 8080 ∧
    "[::1]".data ≠ "::1".data := by
  decide

/-- Witness for C9: the family applied at the target `/p`. -/
theorem C9_ipv6_host_amended_witness :
    ("/p".data ≠ [] ∧ (∀ c ∈ "/p".data, pySpace c = false) ∧
      List.isPrefixOf "http://".data "/p".data = false ∧
      List.isPrefixOf "https://".data "/p".data = false) ∧
    parse_request (("GET".data ++ ' ' :: ("/p".data ++ ' ' :: ver11))
        ++ '\r' :: '\n' :: c9hb) =
      some ⟨"GET".data, "[::1]".data, 8080, "/p".data,
            "GET".data ++ ' ' :: ("/p".data ++ ' ' :: ver11),
            [("host".data, "[::1]:8080".data)], ver11⟩ :=
  ⟨⟨by decide, by decide, by decide, by decide⟩,
   C9_ipv6_host_amended "/p".data (by decide) (by decide) (by decide) (by decide)⟩
